import Mathlib

/-!
# Verification of the SolanaWalletAnalyzer accounting engine

Shallow embedding of `src/bot.py`. Python floats are modelled by `ℚ`
(exact arithmetic), token addresses by `String`, the price oracle by a
pure function `String → ℚ → ℚ` (the value `token_price` would return for
a token at a timestamp), and the Python `dict` / `defaultdict` holding
per-token lot queues by a structure carrying the insertion-ordered key
list together with a lookup function.
-/

namespace SWA

/-- A lot in a token's inventory queue: the tuple
`(token_amount, usd_value, timestamp)` appended at `bot.py` line 221. -/
structure Lot where
  quantity : ℚ
  unit_cost_usd : ℚ
  acquired_at : ℚ
deriving DecidableEq

/-- A normalized swap event as built in `wallet_history` (lines 189-195). -/
structure SwapEvent where
  name : String
  token : String
  timestamp : ℚ
  token_amount : ℚ
  solana_amount : ℚ
deriving DecidableEq

/-- The `holdings` defaultdict of `calculate`: insertion-ordered key list
plus a total lookup function (missing keys give `[]`, as `defaultdict(list)`
does). -/
structure Holdings where
  keys : List String
  val : String → List Lot

/-- `defaultdict(list)` with no entries. -/
def Holdings.empty : Holdings := ⟨[], fun _ => []⟩

/-- `holdings[token] = l`: keeps the key's insertion position if present,
otherwise appends the key, exactly like a Python dict write. -/
def Holdings.set (h : Holdings) (t : String) (l : List Lot) : Holdings :=
  ⟨if t ∈ h.keys then h.keys else h.keys ++ [t], fun t' => if t' = t then l else h.val t'⟩

/-- `holdings.items()` in insertion order. -/
def Holdings.items (h : Holdings) : List (String × List Lot) :=
  h.keys.map (fun k => (k, h.val k))

/-- Result of the FIFO matching loop of a single disposal. -/
structure SellResult where
  pnl_usd : ℚ
  holding_time : ℚ
  lots : List Lot
deriving DecidableEq

/-- The `while amount_to_sell > 0 and holdings[token]:` loop of
`calculate` (lines 227-235).  When `sell_amount < lot.quantity` the code
re-inserts the reduced lot at the head and re-tests the loop condition;
there `sell_amount = min amount_to_sell lot.quantity < lot.quantity`
forces `sell_amount = amount_to_sell`, so the remaining amount is `0`
and the loop exits — the embedding returns directly in that branch. -/
def sellLoop (token_price_usd_sell ts original_amount_to_sell : ℚ) :
    List Lot → ℚ → ℚ → ℚ → SellResult
  | lots, pnl_usd, holding_time, amount_to_sell =>
    if 0 < amount_to_sell then
      match lots with
      | [] => ⟨pnl_usd, holding_time, []⟩
      | lot :: rest =>
        let sell_amount := min amount_to_sell lot.quantity
        let pnl' := pnl_usd + (token_price_usd_sell - lot.unit_cost_usd) * sell_amount
        let ht' := holding_time + (ts - lot.acquired_at) * (sell_amount / original_amount_to_sell)
        if sell_amount < lot.quantity then
          ⟨pnl', ht', ⟨lot.quantity - sell_amount, lot.unit_cost_usd, lot.acquired_at⟩ :: rest⟩
        else
          sellLoop token_price_usd_sell ts original_amount_to_sell rest pnl' ht'
            (amount_to_sell - sell_amount)
    else ⟨pnl_usd, holding_time, lots⟩

/-- The accumulator state of `calculate` (line 212). -/
structure CalcState where
  holdings : Holdings
  realized_pnl : ℚ
  pnl_records : List ℚ
  total_profit_usd : ℚ
  wins : ℕ
  total_sales : ℕ
  total_holding_time : ℚ

/-- Initial accumulators of `calculate`. -/
def initState : CalcState := ⟨Holdings.empty, 0, [], 0, 0, 0, 0⟩

/-- Processing of one transaction in the `for tx in transactions:` loop of
`calculate` (lines 214-244).  `price tok t` is the value `token_price`
returns for token `tok` at timestamp `t`.  Note that on a disposal the
loop condition reads `holdings[token]`, which on a `defaultdict` creates
the key, hence the unconditional `Holdings.set` in that branch. -/
def step (price : String → ℚ → ℚ) (s : CalcState) (tx : SwapEvent) : CalcState :=
  if 0 < tx.token_amount then
    let usd_value := price tx.token tx.timestamp
    if 0 < usd_value then
      let lots := s.holdings.val tx.token ++ [⟨tx.token_amount, usd_value, tx.timestamp⟩]
      { s with holdings := s.holdings.set tx.token lots }
    else s
  else if tx.token_amount < 0 then
    let amount_to_sell := |tx.token_amount|
    let token_price_usd_sell := price tx.token tx.timestamp
    let r := sellLoop token_price_usd_sell tx.timestamp amount_to_sell
      (s.holdings.val tx.token) 0 0 amount_to_sell
    { holdings := s.holdings.set tx.token r.lots
      realized_pnl := s.realized_pnl + r.pnl_usd
      pnl_records := s.pnl_records ++ [r.pnl_usd]
      total_profit_usd := s.total_profit_usd + r.pnl_usd
      wins := if 0 < r.pnl_usd then s.wins + 1 else s.wins
      total_sales := s.total_sales + 1
      total_holding_time := s.total_holding_time + r.holding_time }
  else s

/-- The mark-to-market pass of `calculate` (lines 247-250): for every
token ever entered into `holdings`, fetch the current price and add
`(current_price - buy_price) * amount` for each remaining lot. -/
def unrealizedOf (price : String → ℚ → ℚ) (now : ℚ) (h : Holdings) : ℚ :=
  h.items.foldl
    (fun acc p =>
      let current_price := price p.1 now
      p.2.foldl (fun a lot => a + (current_price - lot.unit_cost_usd) * lot.quantity) acc)
    0

/-- The per-wallet metrics dictionary returned by `calculate` (lines 254-261). -/
structure WalletMetrics where
  wallet : String
  total_pnl_usd : ℚ
  realized_pnl : ℚ
  unrealized_pnl : ℚ
  win_rate : ℚ
  average_holding_time_seconds : ℚ
deriving DecidableEq

/-- `calculate(session, transactions, wallet)`: fold the per-transaction
step over the chronological event list, then mark remaining inventory to
the current price and assemble the metrics. -/
def calculate (price : String → ℚ → ℚ) (now : ℚ) (transactions : List SwapEvent)
    (wallet : String) : WalletMetrics :=
  let s := transactions.foldl (step price) initState
  let unrealized_pnl := unrealizedOf price now s.holdings
  { wallet := wallet
    total_pnl_usd := s.realized_pnl + unrealized_pnl
    realized_pnl := s.realized_pnl
    unrealized_pnl := unrealized_pnl
    win_rate := if s.total_sales = 0 then 0 else (s.wins : ℚ) / (s.total_sales : ℚ) * 100
    average_holding_time_seconds :=
      if s.total_sales = 0 then 0 else s.total_holding_time / (s.total_sales : ℚ) }

/-! ## Price oracle client (`token_price`, lines 134-164)

The remote side (`fetch` plus the response-shape checks) is modelled by a
function into `OracleResp`: `noData` covers a failed request, an
unsuccessful response and a malformed one (the `except` path), while
`ok v` covers a successful response whose `data.value` field is `v`
(`none` when the field is missing, read as `0` by `.get("value", 0)`).
The persisted `token_prices` dict is a `PriceCache`; `save_data` writes
are pure no-ops here.  The returned `Bool` records whether the remote
oracle was queried by this call. -/

inductive OracleResp where
  | noData
  | ok (value : Option ℚ)

/-- The `token_prices` two-level dict: insertion-ordered token keys plus a
lookup function on (token, timestamp-string) pairs. -/
structure PriceCache where
  tokens : List String
  entries : String → String → Option ℚ

/-- The cache as loaded when `token_prices.json` is absent. -/
def PriceCache.empty : PriceCache := ⟨[], fun _ _ => none⟩

/-- `if token not in token_prices: token_prices[token] = {}` (lines 147-149). -/
def PriceCache.ensure (c : PriceCache) (token : String) : PriceCache :=
  if token ∈ c.tokens then c else ⟨c.tokens ++ [token], c.entries⟩

/-- `token_prices[token][timestamp] = price` (line 158). -/
def PriceCache.store (c : PriceCache) (token ts : String) (v : ℚ) : PriceCache :=
  ⟨c.tokens, fun t' ts' => if t' = token ∧ ts' = ts then some v else c.entries t' ts'⟩

/-- `token_price(session, timestamp, token)` (lines 134-164): returns the
price together with the updated cache and whether a remote call was made. -/
def token_price (oracle : String → String → OracleResp) (c : PriceCache)
    (token ts : String) : ℚ × PriceCache × Bool :=
  let c1 := c.ensure token
  match c1.entries token ts with
  | some p => (p, c1, false)
  | none =>
    match oracle token ts with
    | OracleResp.ok v => (v.getD 0, c1.store token ts (v.getD 0), true)
    | OracleResp.noData => (0, c1, true)

/-! ## Screener (`main`, lines 263-279) -/

/-- The five user-supplied thresholds read at startup (lines 33-37). -/
structure Thresholds where
  minimum_wallet_capital : ℚ
  mimimum_average_holding_period : ℚ
  minimum_total_pnl : ℚ
  minimum_win_rate : ℚ

/-- The balance pre-filter (line 272): each wallet is paired with its
fetched balance, and kept when the balance is strictly above
`minimum_wallet_capital`. -/
def qualified_wallets (cfg : Thresholds) (pairs : List (String × ℚ)) : List String :=
  (pairs.filter (fun wb => decide (cfg.minimum_wallet_capital < wb.2))).map Prod.fst

/-- The threshold conjunction of line 274. -/
def qualifies (cfg : Thresholds) (r : WalletMetrics) : Prop :=
  cfg.minimum_win_rate ≤ r.win_rate ∧
    cfg.mimimum_average_holding_period ≤ r.average_holding_time_seconds ∧
    cfg.minimum_total_pnl ≤ r.total_pnl_usd

instance (cfg : Thresholds) (r : WalletMetrics) : Decidable (qualifies cfg r) :=
  inferInstanceAs (Decidable (_ ∧ _ ∧ _))

/-- Descending comparison by `total_pnl_usd` (`key=lambda x: x["total_pnl_usd"], reverse=True`). -/
def pnl_ge (a b : WalletMetrics) : Prop := b.total_pnl_usd ≤ a.total_pnl_usd

instance : DecidableRel pnl_ge :=
  fun a b => inferInstanceAs (Decidable (b.total_pnl_usd ≤ a.total_pnl_usd))

instance : IsTotal WalletMetrics pnl_ge := ⟨fun a b => le_total b.total_pnl_usd a.total_pnl_usd⟩

instance : IsTrans WalletMetrics pnl_ge := ⟨fun _ _ _ h1 h2 => le_trans h2 h1⟩

/-- `sorted_results` (line 274): filter the computed metrics by the
thresholds, then sort by `total_pnl_usd` descending (Python `sorted` is a
stable sort, modelled by insertion sort). -/
def sorted_results (cfg : Thresholds) (final_results : List WalletMetrics) :
    List WalletMetrics :=
  List.insertionSort pnl_ge (final_results.filter (fun r => decide (qualifies cfg r)))

/-! ## Timeframe parsing (`timeframe_to_seconds`, lines 95-104) -/

/-- The `time_units` dict of line 103. -/
def time_units : List (String × ℤ) :=
  [("s", 1), ("mi", 60), ("h", 3600), ("d", 86400), ("w", 604800), ("m", 2592000), ("y", 31536000)]

/-- The value of a decimal digit character, `none` otherwise. -/
def charDigit? (c : Char) : Option ℕ :=
  if c.isDigit then some (c.toNat - 48) else none

/-- The value of a nonempty all-digit character sequence, `none` otherwise. -/
def natOfDigits? (s : List Char) : Option ℕ :=
  match s with
  | [] => none
  | _ => s.foldl
      (fun acc c =>
        match acc, charDigit? c with
        | some n, some d => some (10 * n + d)
        | _, _ => none)
      (some 0)

/-- Python `int(s)` on a string: an optional `-` sign followed by digits
gives the integer, anything else raises `ValueError` (modelled `none`). -/
def pyInt? (s : List Char) : Option ℤ :=
  match s with
  | '-' :: rest => (natOfDigits? rest).map (fun n => -(n : ℤ))
  | _ => (natOfDigits? s).map (fun n => (n : ℤ))

/-- `timeframe_to_seconds(timeframe)` (lines 95-104); `now` is
`int(time.time())`.  `int(timeframe[:-1])` raises `ValueError` when the
prefix is not an integer literal, modelled by `none`; `timeframe[-1]` is
the final one-character string (`IndexError`, hence `none`, on the empty
string), and `.get(unit, 0)` defaults to `0`. -/
def timeframe_to_seconds (now : ℤ) (timeframe : String) : Option ℤ :=
  if timeframe = "all" then some now
  else
    match timeframe.data.getLast? with
    | none => none
    | some unit =>
      (pyInt? timeframe.data.dropLast).map
        (fun n => n * ((List.lookup (String.mk [unit]) time_units).getD 0))

/-- Modelled from the spec: the timeframe grammar of §6 — an integer
prefix followed by a unit in {s, mi, h, d, w, m, y}, the unit multiplier
taken from the same table (`mi` = 60 seconds per minute), or the
literal "all". -/
def timeframe_to_seconds_spec (now : ℤ) (timeframe : String) : Option ℤ :=
  if timeframe = "all" then some now
  else (time_units.filterMap
    (fun u => if u.1.data.isSuffixOf timeframe.data then
        (pyInt? (timeframe.data.take (timeframe.data.length - u.1.data.length))).map
          (fun n => n * u.2)
      else none)).head?

/-! ## Spec-side characterization of one disposal's lot consumption -/

/-- The (matched quantity, unit cost, acquisition time) triples of the
lots consumed by one disposal, following §4.3 of the spec: `matched =
min(need, lot.quantity)`, head lots consumed in order, stopping when the
need is exhausted (a partially consumed lot ends the disposal) or the
queue is empty. -/
def consumedMatches : List Lot → ℚ → List (ℚ × ℚ × ℚ)
  | lots, need =>
    if 0 < need then
      match lots with
      | [] => []
      | lot :: rest =>
        let matched := min need lot.quantity
        (matched, lot.unit_cost_usd, lot.acquired_at) ::
          (if matched < lot.quantity then [] else consumedMatches rest (need - matched))
    else []

/-! ## Helper lemmas about the matching loop -/

/-- Queue ordering relation: by acquisition time, oldest first. -/
def lotLe (a b : Lot) : Prop := a.acquired_at ≤ b.acquired_at

instance : DecidableRel lotLe :=
  fun a b => inferInstanceAs (Decidable (a.acquired_at ≤ b.acquired_at))

theorem sellLoop_pnl (p ts orig : ℚ) :
    ∀ (lots : List Lot) (pnl ht need : ℚ),
      (sellLoop p ts orig lots pnl ht need).pnl_usd =
        pnl + ((consumedMatches lots need).map (fun m => (p - m.2.1) * m.1)).sum
  | [], pnl, ht, need => by
    by_cases h : 0 < need <;> simp [sellLoop, consumedMatches, h]
  | lot :: rest, pnl, ht, need => by
    by_cases h : 0 < need
    · by_cases h2 : min need lot.quantity < lot.quantity
      · simp [sellLoop, consumedMatches, h, h2]
      · simp only [sellLoop, consumedMatches, if_pos h, if_neg h2,
          sellLoop_pnl p ts orig rest, List.map_cons, List.sum_cons]
        ring
    · simp [sellLoop, consumedMatches, h]

theorem sellLoop_holding_time (p ts orig : ℚ) :
    ∀ (lots : List Lot) (pnl ht need : ℚ),
      (sellLoop p ts orig lots pnl ht need).holding_time =
        ht + ((consumedMatches lots need).map (fun m => (ts - m.2.2) * (m.1 / orig))).sum
  | [], pnl, ht, need => by
    by_cases h : 0 < need <;> simp [sellLoop, consumedMatches, h]
  | lot :: rest, pnl, ht, need => by
    by_cases h : 0 < need
    · by_cases h2 : min need lot.quantity < lot.quantity
      · simp [sellLoop, consumedMatches, h, h2]
      · simp only [sellLoop, consumedMatches, if_pos h, if_neg h2,
          sellLoop_holding_time p ts orig rest, List.map_cons, List.sum_cons]
        ring
    · simp [sellLoop, consumedMatches, h]

theorem sellLoop_quantity_pos (p ts orig : ℚ) :
    ∀ (lots : List Lot) (pnl ht need : ℚ), (∀ l ∈ lots, 0 < l.quantity) →
      ∀ l ∈ (sellLoop p ts orig lots pnl ht need).lots, 0 < l.quantity
  | [], pnl, ht, need => by
    intro _ l hl
    by_cases h : 0 < need <;> simp [sellLoop, h] at hl
  | lot :: rest, pnl, ht, need => by
    intro hpos l hl
    by_cases h : 0 < need
    · by_cases h2 : min need lot.quantity < lot.quantity
      · simp only [sellLoop, if_pos h, if_pos h2] at hl
        rcases List.mem_cons.mp hl with rfl | hl
        · simpa using sub_pos.mpr h2
        · exact hpos l (List.mem_cons_of_mem _ hl)
      · simp only [sellLoop, if_pos h, if_neg h2] at hl
        exact sellLoop_quantity_pos p ts orig rest _ _ _
          (fun l' hl' => hpos l' (List.mem_cons_of_mem _ hl')) l hl
    · simp only [sellLoop, if_neg h] at hl
      exact hpos l hl

theorem sellLoop_acquired_le (p ts orig : ℚ) (B : ℚ) :
    ∀ (lots : List Lot) (pnl ht need : ℚ), (∀ l ∈ lots, l.acquired_at ≤ B) →
      ∀ l ∈ (sellLoop p ts orig lots pnl ht need).lots, l.acquired_at ≤ B
  | [], pnl, ht, need => by
    intro _ l hl
    by_cases h : 0 < need <;> simp [sellLoop, h] at hl
  | lot :: rest, pnl, ht, need => by
    intro hle l hl
    by_cases h : 0 < need
    · by_cases h2 : min need lot.quantity < lot.quantity
      · simp only [sellLoop, if_pos h, if_pos h2] at hl
        rcases List.mem_cons.mp hl with rfl | hl
        · simpa using hle lot (List.mem_cons_self _ _)
        · exact hle l (List.mem_cons_of_mem _ hl)
      · simp only [sellLoop, if_pos h, if_neg h2] at hl
        exact sellLoop_acquired_le p ts orig B rest _ _ _
          (fun l' hl' => hle l' (List.mem_cons_of_mem _ hl')) l hl
    · simp only [sellLoop, if_neg h] at hl
      exact hle l hl

theorem sellLoop_sorted (p ts orig : ℚ) :
    ∀ (lots : List Lot) (pnl ht need : ℚ), lots.Sorted lotLe →
      ((sellLoop p ts orig lots pnl ht need).lots).Sorted lotLe
  | [], pnl, ht, need => by
    intro _
    by_cases h : 0 < need <;> simp [sellLoop, h, List.Sorted]
  | lot :: rest, pnl, ht, need => by
    intro hs
    by_cases h : 0 < need
    · by_cases h2 : min need lot.quantity < lot.quantity
      · simp only [sellLoop, if_pos h, if_pos h2]
        rw [List.sorted_cons] at hs ⊢
        exact ⟨fun b hb => hs.1 b hb, hs.2⟩
      · simp only [sellLoop, if_pos h, if_neg h2]
        exact sellLoop_sorted p ts orig rest _ _ _ (List.sorted_cons.mp hs).2
    · simpa [sellLoop, if_neg h] using hs

theorem sellLoop_exhausts (p ts orig : ℚ) :
    ∀ (lots : List Lot) (pnl ht need : ℚ), (∀ l ∈ lots, 0 < l.quantity) →
      (lots.map Lot.quantity).sum < need →
      (sellLoop p ts orig lots pnl ht need).lots = []
  | [], pnl, ht, need => by
    intro _ hlt
    simp only [List.map_nil, List.sum_nil] at hlt
    simp [sellLoop, hlt]
  | lot :: rest, pnl, ht, need => by
    intro hpos hlt
    simp only [List.map_cons, List.sum_cons] at hlt
    have hrest : 0 ≤ (rest.map Lot.quantity).sum := by
      apply List.sum_nonneg
      intro q hq
      rcases List.mem_map.mp hq with ⟨l, hl, rfl⟩
      exact le_of_lt (hpos l (List.mem_cons_of_mem _ hl))
    have hq : lot.quantity < need := lt_of_le_of_lt (le_add_of_nonneg_right hrest) hlt
    have h : 0 < need := lt_trans (hpos lot (List.mem_cons_self _ _)) hq
    have hmin : min need lot.quantity = lot.quantity := min_eq_right (le_of_lt hq)
    have h2 : ¬ min need lot.quantity < lot.quantity := by rw [hmin]; exact lt_irrefl _
    simp only [sellLoop, if_pos h, if_neg h2]
    exact sellLoop_exhausts p ts orig rest _ _ _
      (fun l' hl' => hpos l' (List.mem_cons_of_mem _ hl'))
      (by rw [hmin]; linarith)

/-! ## Helper lemmas about the per-event step and the state invariant -/

theorem Holdings.val_set (h : Holdings) (t : String) (l : List Lot) (t' : String) :
    (h.set t l).val t' = if t' = t then l else h.val t' := rfl

/-- Well-formedness of the accounting state: every lot in every queue has
positive quantity and was acquired no later than `B`, and every queue is
ordered by acquisition time, oldest first. -/
def StateWF (B : ℚ) (s : CalcState) : Prop :=
  ∀ t, (∀ l ∈ s.holdings.val t, 0 < l.quantity ∧ l.acquired_at ≤ B) ∧
    (s.holdings.val t).Sorted lotLe

theorem stateWF_init (B : ℚ) : StateWF B initState := by
  intro t
  simp [initState, Holdings.empty, List.Sorted]

theorem stateWF_mono {B B' : ℚ} {s : CalcState} (hB : B ≤ B') (h : StateWF B s) :
    StateWF B' s := by
  intro t
  exact ⟨fun l hl => ⟨(h t).1 l hl |>.1, le_trans ((h t).1 l hl).2 hB⟩, (h t).2⟩

theorem step_stateWF (price : String → ℚ → ℚ) {B : ℚ} {s : CalcState} {tx : SwapEvent}
    (hwf : StateWF B s) (hts : B ≤ tx.timestamp) : StateWF tx.timestamp (step price s tx) := by
  have hwf' : StateWF tx.timestamp s := stateWF_mono hts hwf
  by_cases hpos : 0 < tx.token_amount
  · by_cases hp : 0 < price tx.token tx.timestamp
    · intro t
      simp only [step, if_pos hpos, if_pos hp, Holdings.val_set]
      by_cases ht : t = tx.token
      · subst ht
        rw [if_pos rfl]
        constructor
        · intro l hl
          rcases List.mem_append.mp hl with hl | hl
          · exact (hwf' tx.token).1 l hl
          · rcases List.mem_singleton.mp hl with rfl
            exact ⟨hpos, le_refl _⟩
        · apply List.pairwise_append.mpr
          refine ⟨(hwf' tx.token).2, List.pairwise_singleton _ _, ?_⟩
          intro a ha b hb
          rcases List.mem_singleton.mp hb with rfl
          exact ((hwf' tx.token).1 a ha).2
      · rw [if_neg ht]
        exact hwf' t
    · intro t
      simpa only [step, if_pos hpos, if_neg hp] using hwf' t
  · by_cases hneg : tx.token_amount < 0
    · intro t
      simp only [step, if_neg hpos, if_pos hneg, Holdings.val_set]
      by_cases ht : t = tx.token
      · rw [if_pos ht]
        constructor
        · intro l hl
          refine ⟨sellLoop_quantity_pos _ _ _ _ _ _ _
            (fun l' hl' => ((hwf' tx.token).1 l' hl').1) l hl, ?_⟩
          exact sellLoop_acquired_le _ _ _ _ _ _ _ _
            (fun l' hl' => ((hwf' tx.token).1 l' hl').2) l hl
        · exact sellLoop_sorted _ _ _ _ _ _ _ (hwf' tx.token).2
      · rw [if_neg ht]
        exact hwf' t
    · intro t
      simpa only [step, if_neg hpos, if_neg hneg] using hwf' t

/-- Folding the step over a chronological batch of events preserves
well-formedness, provided the state is well-formed at a bound below every
event timestamp. -/
theorem foldl_stateWF (price : String → ℚ → ℚ) :
    ∀ (txs : List SwapEvent) (B : ℚ) (s : CalcState), StateWF B s →
      ((txs.map SwapEvent.timestamp).Sorted (· ≤ ·)) →
      (∀ e ∈ txs, B ≤ e.timestamp) →
      ∃ B', StateWF B' (txs.foldl (step price) s)
  | [], B, s, hwf, _, _ => ⟨B, hwf⟩
  | tx :: rest, B, s, hwf, hsort, hB => by
    simp only [List.foldl_cons]
    simp only [List.map_cons, List.sorted_cons] at hsort
    exact foldl_stateWF price rest tx.timestamp (step price s tx)
      (step_stateWF price hwf (hB tx (List.mem_cons_self _ _)))
      hsort.2
      (fun e he => by
        have := hsort.1 e.timestamp (List.mem_map.mpr ⟨e, he, rfl⟩)
        exact this)

theorem step_total_sales_of_nonneg (price : String → ℚ → ℚ) (s : CalcState)
    (tx : SwapEvent) (h : ¬ tx.token_amount < 0) :
    (step price s tx).total_sales = s.total_sales := by
  by_cases hpos : 0 < tx.token_amount
  · by_cases hp : 0 < price tx.token tx.timestamp <;>
      simp [step, hpos, hp]
  · simp [step, hpos, h]

theorem foldl_total_sales_of_nonneg (price : String → ℚ → ℚ) :
    ∀ (txs : List SwapEvent) (s : CalcState), (∀ e ∈ txs, ¬ e.token_amount < 0) →
      (txs.foldl (step price) s).total_sales = s.total_sales
  | [], s, _ => rfl
  | tx :: rest, s, h => by
    simp only [List.foldl_cons]
    rw [foldl_total_sales_of_nonneg price rest _
      (fun e he => h e (List.mem_cons_of_mem _ he))]
    exact step_total_sales_of_nonneg price s tx (h tx (List.mem_cons_self _ _))

/-! ## Worked example from the spec (§8) -/

/-- Price oracle for the worked example: token "T" is worth 1, 2 and 3 USD
at timestamps 100, 200 and 300, and 0 at any other time. -/
def examplePrice : String → ℚ → ℚ := fun _ t =>
  if t = 100 then 1 else if t = 200 then 2 else if t = 300 then 3 else 0

/-- A1(qty=10, cost=1) at t=100, A2(qty=10, cost=2) at t=200, then a
disposal of qty=15 at t=300 (sell price 3). -/
def exampleEvents : List SwapEvent :=
  [⟨"A1", "T", 100, 10, -1⟩, ⟨"A2", "T", 200, 10, -1⟩, ⟨"D", "T", 300, -15, 1⟩]

/-! ## Claims -/

/-- C1: FIFO lot matching — acquisitions A1(10 @ 1) then A2(10 @ 2) are
pushed to the tail of token "T"'s queue in order; the disposal of 15 at
sell price 3 then consumes lots head-first, records realized PnL
`10*(3-1) + 5*(3-2) = 25`, and leaves exactly one lot of quantity 5 at
unit cost 2 with A2's acquisition time 200. -/
theorem C1_fifo_lot_matching :
    (([⟨"A1", "T", 100, 10, -1⟩, ⟨"A2", "T", 200, 10, -1⟩] : List SwapEvent).foldl
        (step examplePrice) initState).holdings.val "T" = [⟨10, 1, 100⟩, ⟨10, 2, 200⟩] ∧
    (exampleEvents.foldl (step examplePrice) initState).realized_pnl = 25 ∧
    (exampleEvents.foldl (step examplePrice) initState).pnl_records = [25] ∧
    (exampleEvents.foldl (step examplePrice) initState).holdings.val "T" = [⟨5, 2, 200⟩] := by
  norm_num [exampleEvents, step, sellLoop, examplePrice, initState, Holdings.empty,
    Holdings.set, List.foldl]

/-- C2: holding-time weighting — for every disposal the holding-time
contribution is the sum over consumed lots of
`(disposal timestamp - acquisition timestamp) * (matched / original need)`,
normalized by the original disposal quantity; in particular a qty-15
disposal spanning a lot of 10 aged 100 s and a lot of 5 aged 200 s
contributes `(10/15)*100 + (5/15)*200`. -/
theorem C2_holding_time_weighting :
    (∀ (p ts orig : ℚ) (lots : List Lot) (pnl ht need : ℚ),
        (sellLoop p ts orig lots pnl ht need).holding_time =
          ht + ((consumedMatches lots need).map
            (fun m => (ts - m.2.2) * (m.1 / orig))).sum) ∧
    (sellLoop 3 1000 15 [⟨10, 1, 900⟩, ⟨5, 2, 800⟩] 0 0 15).holding_time =
      (10 / 15) * 100 + (5 / 15) * 200 := by
  constructor
  · intro p ts orig lots pnl ht need
    exact sellLoop_holding_time p ts orig lots pnl ht need
  · norm_num [sellLoop]

/-- C3: unknown-price acquisitions are dropped — an acquisition whose
price lookup returns 0 leaves the state (in particular every inventory
queue) unchanged, and a disposal of a token with an empty queue matches
nothing: it appends a per-disposal PnL of exactly 0 and leaves the
realized-PnL accumulator unchanged. -/
theorem C3_unknown_price_acquisition_dropped :
    (∀ (price : String → ℚ → ℚ) (s : CalcState) (tx : SwapEvent),
        0 < tx.token_amount → price tx.token tx.timestamp = 0 →
        step price s tx = s) ∧
    (∀ (price : String → ℚ → ℚ) (s : CalcState) (tx : SwapEvent),
        tx.token_amount < 0 → s.holdings.val tx.token = [] →
        (step price s tx).realized_pnl = s.realized_pnl ∧
        (step price s tx).pnl_records = s.pnl_records ++ [0] ∧
        (step price s tx).holdings.val tx.token = []) := by
  constructor
  · intro price s tx h1 h2
    simp [step, h1, h2]
  · intro price s tx h1 h2
    have hpos : ¬ 0 < tx.token_amount := not_lt.mpr (le_of_lt h1)
    have hn : 0 < |tx.token_amount| := abs_pos.mpr (ne_of_lt h1)
    simp [step, hpos, h1, h2, sellLoop, hn, Holdings.val_set]

/-- Closed instance of `C3_unknown_price_acquisition_dropped`: an
acquisition of token "U" (whose price is 0 in the example oracle) leaves
the initial state unchanged, and a disposal of "U" from the initial
state records a per-disposal PnL of 0. -/
theorem C3_witness :
    step examplePrice initState ⟨"A", "U", 400, 7, -1⟩ = initState ∧
    ((step examplePrice initState ⟨"D", "U", 400, -7, 1⟩).realized_pnl =
        initState.realized_pnl ∧
      (step examplePrice initState ⟨"D", "U", 400, -7, 1⟩).pnl_records =
        initState.pnl_records ++ [0] ∧
      (step examplePrice initState ⟨"D", "U", 400, -7, 1⟩).holdings.val "U" = []) :=
  ⟨C3_unknown_price_acquisition_dropped.1 examplePrice initState ⟨"A", "U", 400, 7, -1⟩
      (by norm_num) (by norm_num [examplePrice]),
    C3_unknown_price_acquisition_dropped.2 examplePrice initState ⟨"D", "U", 400, -7, 1⟩
      (by norm_num) rfl⟩

/-- C4: over-disposal tolerance — on a disposal whose quantity exceeds
the total tracked inventory of the token, the matching loop consumes
every available lot, leaves that token's queue empty, and every queue
still holds only lots of positive quantity (the unmatched remainder is
simply ignored; the loop terminates with no error by construction). -/
theorem C4_over_disposal_tolerance :
    ∀ (price : String → ℚ → ℚ) (s : CalcState) (tx : SwapEvent),
      tx.token_amount < 0 →
      (∀ t l, l ∈ s.holdings.val t → 0 < l.quantity) →
      ((s.holdings.val tx.token).map Lot.quantity).sum < |tx.token_amount| →
      (step price s tx).holdings.val tx.token = [] ∧
      (∀ t l, l ∈ (step price s tx).holdings.val t → 0 < l.quantity) := by
  intro price s tx h1 hpos hlt
  have hneg : ¬ 0 < tx.token_amount := not_lt.mpr (le_of_lt h1)
  constructor
  · simp only [step, if_neg hneg, if_pos h1, Holdings.val_set, if_pos rfl]
    exact sellLoop_exhausts _ _ _ _ _ _ _ (fun l hl => hpos tx.token l hl) hlt
  · intro t l hl
    simp only [step, if_neg hneg, if_pos h1, Holdings.val_set] at hl
    by_cases ht : t = tx.token
    · rw [if_pos ht] at hl
      exact sellLoop_quantity_pos _ _ _ _ _ _ _ (fun l' hl' => hpos tx.token l' hl') l hl
    · rw [if_neg ht] at hl
      exact hpos t l hl

/-- Closed instance of `C4_over_disposal_tolerance`: disposing 15 of
token "T" against an inventory holding a single lot of 10 empties the
queue and leaves every remaining lot (there are none) positive. -/
theorem C4_witness :
    (step examplePrice
        ⟨Holdings.empty.set "T" [⟨10, 1, 100⟩], 0, [], 0, 0, 0, 0⟩
        ⟨"D", "T", 300, -15, 1⟩).holdings.val "T" = [] ∧
    (∀ t l, l ∈ (step examplePrice
        ⟨Holdings.empty.set "T" [⟨10, 1, 100⟩], 0, [], 0, 0, 0, 0⟩
        ⟨"D", "T", 300, -15, 1⟩).holdings.val t → 0 < l.quantity) :=
  C4_over_disposal_tolerance examplePrice
    ⟨Holdings.empty.set "T" [⟨10, 1, 100⟩], 0, [], 0, 0, 0, 0⟩
    ⟨"D", "T", 300, -15, 1⟩
    (by norm_num)
    (by
      intro t l hl
      simp only [Holdings.val_set, Holdings.empty] at hl
      by_cases ht : t = "T"
      · rw [if_pos ht] at hl
        rcases List.mem_singleton.mp hl with rfl
        norm_num
      · rw [if_neg ht] at hl
        simp at hl)
    (by norm_num [Holdings.val_set])

/-! ## Price cache lemmas -/

theorem PriceCache.ensure_entries (c : PriceCache) (token : String) :
    (c.ensure token).entries = c.entries := by
  unfold PriceCache.ensure
  split <;> rfl

theorem PriceCache.mem_ensure_tokens (c : PriceCache) (token : String) :
    token ∈ (c.ensure token).tokens := by
  unfold PriceCache.ensure
  split
  · assumption
  · exact List.mem_append.mpr (Or.inr (List.mem_singleton.mpr rfl))

theorem PriceCache.ensure_of_mem {c : PriceCache} {token : String}
    (h : token ∈ c.tokens) : c.ensure token = c := by
  unfold PriceCache.ensure
  rw [if_pos h]

theorem token_price_cached {oracle : String → String → OracleResp} {c : PriceCache}
    {token ts : String} {p : ℚ} (h : (c.ensure token).entries token ts = some p) :
    token_price oracle c token ts = (p, c.ensure token, false) := by
  simp [token_price, h]

theorem token_price_ok {oracle : String → String → OracleResp} {c : PriceCache}
    {token ts : String} {v : Option ℚ} (h : (c.ensure token).entries token ts = none)
    (ho : oracle token ts = OracleResp.ok v) :
    token_price oracle c token ts =
      (v.getD 0, (c.ensure token).store token ts (v.getD 0), true) := by
  simp [token_price, h, ho]

theorem token_price_noData {oracle : String → String → OracleResp} {c : PriceCache}
    {token ts : String} (h : (c.ensure token).entries token ts = none)
    (ho : oracle token ts = OracleResp.noData) :
    token_price oracle c token ts = (0, c.ensure token, true) := by
  simp [token_price, h, ho]

/-- An oracle whose every lookup fails (network error / unsuccessful
response / malformed response). -/
def failOracle : String → String → OracleResp := fun _ _ => OracleResp.noData

/-- An oracle whose every lookup succeeds with value 5. -/
def okOracle : String → String → OracleResp := fun _ _ => OracleResp.ok (some 5)

/-- C5 counterexample: with an always-failing oracle, the first lookup of
("T", "100") returns 0 and issues a remote call but does NOT cache the
zero sentinel, and a second lookup of the same key issues ANOTHER remote
call — contradicting the claim that failures are memoized and at most one
remote call is issued per key. -/
theorem C5_counterexample :
    (token_price failOracle PriceCache.empty "T" "100").1 = 0 ∧
    (token_price failOracle PriceCache.empty "T" "100").2.2 = true ∧
    (token_price failOracle PriceCache.empty "T" "100").2.1.entries "T" "100" = none ∧
    (token_price failOracle
      (token_price failOracle PriceCache.empty "T" "100").2.1 "T" "100").2.2 = true := by
  decide

/-- C5 as amended: successful lookups (including those whose response
lacks a value, cached as 0) are cached, and a repeat lookup returns the
cached value without a remote call; but a FAILED lookup returns 0 without
caching anything for its key, so a repeat lookup of a failed key issues
another remote call — failures are retried, not memoized. -/
theorem C5_success_memoized_failure_retried :
    ∀ (oracle : String → String → OracleResp) (c : PriceCache) (token ts : String),
      (∀ p, (c.ensure token).entries token ts = some p →
        token_price oracle c token ts = (p, c.ensure token, false)) ∧
      ((c.ensure token).entries token ts = none →
        (∀ v, oracle token ts = OracleResp.ok v →
          (token_price oracle c token ts).1 = v.getD 0 ∧
          (token_price oracle c token ts).2.2 = true ∧
          (token_price oracle c token ts).2.1.entries token ts = some (v.getD 0) ∧
          token_price oracle (token_price oracle c token ts).2.1 token ts =
            (v.getD 0, (token_price oracle c token ts).2.1, false)) ∧
        (oracle token ts = OracleResp.noData →
          token_price oracle c token ts = (0, c.ensure token, true) ∧
          (token_price oracle c token ts).2.1.entries token ts = none ∧
          (token_price oracle (token_price oracle c token ts).2.1 token ts).2.2 = true)) := by
  intro oracle c token ts
  refine ⟨fun p h => token_price_cached h, fun hnone => ⟨?_, ?_⟩⟩
  · intro v ho
    rw [token_price_ok hnone ho]
    refine ⟨rfl, ?_, ?_, ?_⟩
    · rfl
    · simp [PriceCache.store]
    · have hmem : token ∈ ((c.ensure token).store token ts (v.getD 0)).tokens :=
        PriceCache.mem_ensure_tokens c token
      have hens : ((c.ensure token).store token ts (v.getD 0)).ensure token =
          (c.ensure token).store token ts (v.getD 0) := PriceCache.ensure_of_mem hmem
      have hcached : (((c.ensure token).store token ts (v.getD 0)).ensure token).entries
          token ts = some (v.getD 0) := by
        rw [hens]
        simp [PriceCache.store]
      have hres : token_price oracle ((c.ensure token).store token ts (v.getD 0)) token ts =
          (v.getD 0, (c.ensure token).store token ts (v.getD 0), false) := by
        rw [token_price_cached hcached, hens]
      exact hres
  · intro ho
    have h1 : token_price oracle c token ts = (0, c.ensure token, true) :=
      token_price_noData hnone ho
    refine ⟨h1, ?_, ?_⟩
    · rw [h1]
      exact hnone
    · rw [h1]
      have hens : (c.ensure token).ensure token = c.ensure token :=
        PriceCache.ensure_of_mem (PriceCache.mem_ensure_tokens c token)
      have hnone' : ((c.ensure token).ensure token).entries token ts = none := by
        rw [hens]; exact hnone
      rw [token_price_noData hnone' ho]

/-- Closed instance of `C5_success_memoized_failure_retried`: on the empty
cache, a successful lookup of ("T", "100") returns 5, caches it, and a
repeat lookup returns the cached 5 without a remote call; a failing
lookup returns 0, leaves the key uncached, and a repeat lookup issues
another remote call. -/
theorem C5_witness :
    ((token_price okOracle PriceCache.empty "T" "100").1 = 5 ∧
      (token_price okOracle PriceCache.empty "T" "100").2.2 = true ∧
      (token_price okOracle PriceCache.empty "T" "100").2.1.entries "T" "100" = some 5 ∧
      token_price okOracle (token_price okOracle PriceCache.empty "T" "100").2.1 "T" "100" =
        (5, (token_price okOracle PriceCache.empty "T" "100").2.1, false)) ∧
    (token_price failOracle PriceCache.empty "T" "100" =
        (0, PriceCache.empty.ensure "T", true) ∧
      (token_price failOracle PriceCache.empty "T" "100").2.1.entries "T" "100" = none ∧
      (token_price failOracle
        (token_price failOracle PriceCache.empty "T" "100").2.1 "T" "100").2.2 = true) :=
  ⟨((C5_success_memoized_failure_retried okOracle PriceCache.empty "T" "100").2
      rfl).1 (some 5) rfl,
    ((C5_success_memoized_failure_retried failOracle PriceCache.empty "T" "100").2
      rfl).2 rfl⟩

/-- C6: final metrics — with no disposal event, `total_sales` stays 0 and
both `win_rate` and `average_holding_time_seconds` are returned as 0
(no division); with at least one sale they are `wins / total_sales * 100`
and `total_holding_time / total_sales`; and `total_pnl_usd` is always
`realized_pnl + unrealized_pnl`. -/
theorem C6_final_metrics :
    ∀ (price : String → ℚ → ℚ) (now : ℚ) (txs : List SwapEvent) (w : String),
      ((∀ e ∈ txs, ¬ e.token_amount < 0) →
        (calculate price now txs w).win_rate = 0 ∧
        (calculate price now txs w).average_holding_time_seconds = 0) ∧
      ((txs.foldl (step price) initState).total_sales ≠ 0 →
        (calculate price now txs w).win_rate =
          ((txs.foldl (step price) initState).wins : ℚ) /
            ((txs.foldl (step price) initState).total_sales : ℚ) * 100 ∧
        (calculate price now txs w).average_holding_time_seconds =
          (txs.foldl (step price) initState).total_holding_time /
            ((txs.foldl (step price) initState).total_sales : ℚ)) ∧
      (calculate price now txs w).total_pnl_usd =
        (calculate price now txs w).realized_pnl +
          (calculate price now txs w).unrealized_pnl := by
  intro price now txs w
  refine ⟨?_, ?_, rfl⟩
  · intro h
    have h0 : (txs.foldl (step price) initState).total_sales = 0 :=
      (foldl_total_sales_of_nonneg price txs initState h).trans rfl
    exact ⟨by simp [calculate, h0], by simp [calculate, h0]⟩
  · intro h
    exact ⟨by simp [calculate, h], by simp [calculate, h]⟩

/-- Closed instance of `C6_final_metrics`: a wallet with a single
acquisition and no disposal reports `win_rate = 0` and
`average_holding_time_seconds = 0`; the worked example with one
(winning) disposal reports `wins / total_sales * 100`. -/
theorem C6_witness :
    ((calculate examplePrice 400 [⟨"A1", "T", 100, 10, -1⟩] "w").win_rate = 0 ∧
      (calculate examplePrice 400 [⟨"A1", "T", 100, 10, -1⟩] "w").average_holding_time_seconds
        = 0) ∧
    ((calculate examplePrice 400 exampleEvents "w").win_rate =
        ((exampleEvents.foldl (step examplePrice) initState).wins : ℚ) /
          ((exampleEvents.foldl (step examplePrice) initState).total_sales : ℚ) * 100 ∧
      (calculate examplePrice 400 exampleEvents "w").average_holding_time_seconds =
        (exampleEvents.foldl (step examplePrice) initState).total_holding_time /
          ((exampleEvents.foldl (step examplePrice) initState).total_sales : ℚ)) :=
  ⟨(C6_final_metrics examplePrice 400 [⟨"A1", "T", 100, 10, -1⟩] "w").1
      (by
        intro e he
        rcases List.mem_singleton.mp he with rfl
        norm_num),
    (C6_final_metrics examplePrice 400 exampleEvents "w").2.1
      (by
        norm_num [exampleEvents, step, sellLoop, examplePrice, initState, Holdings.empty,
          Holdings.set, List.foldl])⟩

/-- C7: screener filtering and ordering — an address survives the balance
pre-filter iff its fetched balance is strictly greater than the capital
threshold; a metrics record is emitted iff all three threshold
comparisons hold (inclusively); the emitted records are a permutation of
the qualifying records sorted by `total_pnl_usd` descending. -/
theorem C7_screener_filtering_and_ordering :
    (∀ (cfg : Thresholds) (pairs : List (String × ℚ)) (w : String),
        w ∈ qualified_wallets cfg pairs ↔
          ∃ b, (w, b) ∈ pairs ∧ cfg.minimum_wallet_capital < b) ∧
    (∀ (cfg : Thresholds) (rs : List WalletMetrics) (r : WalletMetrics),
        r ∈ sorted_results cfg rs ↔ r ∈ rs ∧ qualifies cfg r) ∧
    (∀ (cfg : Thresholds) (rs : List WalletMetrics),
        List.Perm (sorted_results cfg rs) (rs.filter (fun r => decide (qualifies cfg r)))) ∧
    (∀ (cfg : Thresholds) (rs : List WalletMetrics),
        (sorted_results cfg rs).Sorted pnl_ge) := by
  refine ⟨?_, ?_, ?_, ?_⟩
  · intro cfg pairs w
    simp only [qualified_wallets, List.mem_map, List.mem_filter, decide_eq_true_eq]
    constructor
    · rintro ⟨⟨a, b⟩, ⟨hmem, hb⟩, rfl⟩
      exact ⟨b, hmem, hb⟩
    · rintro ⟨b, hmem, hb⟩
      exact ⟨(w, b), ⟨hmem, hb⟩, rfl⟩
  · intro cfg rs r
    unfold sorted_results
    rw [List.mem_insertionSort]
    simp [List.mem_filter]
  · intro cfg rs
    exact List.perm_insertionSort pnl_ge _
  · intro cfg rs
    exact List.sorted_insertionSort pnl_ge _

/-- C8: inventory invariant — for a chronological event sequence (event
timestamps nondecreasing), after processing any prefix every lot in every
token's queue has positive quantity and every queue is ordered by
acquisition time, oldest first at the head. -/
theorem C8_inventory_invariant :
    ∀ (price : String → ℚ → ℚ) (events pre suf : List SwapEvent),
      events = pre ++ suf →
      (events.map SwapEvent.timestamp).Sorted (· ≤ ·) →
      ∀ t, (∀ l ∈ (pre.foldl (step price) initState).holdings.val t, 0 < l.quantity) ∧
        ((pre.foldl (step price) initState).holdings.val t).Sorted lotLe := by
  intro price events pre suf heq hsort
  subst heq
  have hpre : (pre.map SwapEvent.timestamp).Sorted (· ≤ ·) := by
    rw [List.map_append] at hsort
    exact hsort.sublist (List.sublist_append_left _ _)
  cases pre with
  | nil =>
    intro t
    simp [initState, Holdings.empty, List.Sorted]
  | cons e rest =>
    have hpre' : (∀ x ∈ rest, e.timestamp ≤ x.timestamp) ∧
        (rest.map SwapEvent.timestamp).Sorted (· ≤ ·) := by
      simpa using hpre
    have hB : ∀ x ∈ e :: rest, e.timestamp ≤ x.timestamp := by
      intro x hx
      rcases List.mem_cons.mp hx with rfl | hx
      · exact le_refl _
      · exact hpre'.1 x hx
    obtain ⟨B', hwf⟩ := foldl_stateWF price (e :: rest) e.timestamp initState
      (stateWF_init _) hpre hB
    intro t
    exact ⟨fun l hl => ((hwf t).1 l hl).1, (hwf t).2⟩

/-- Closed instance of `C8_inventory_invariant`: after the full worked
example, token "T"'s queue holds only positive lots sorted by acquisition
time. -/
theorem C8_witness :
    (∀ l ∈ (exampleEvents.foldl (step examplePrice) initState).holdings.val "T",
      0 < l.quantity) ∧
    ((exampleEvents.foldl (step examplePrice) initState).holdings.val "T").Sorted lotLe :=
  C8_inventory_invariant examplePrice exampleEvents exampleEvents []
    (List.append_nil _).symm
    (by norm_num [exampleEvents, List.sorted_cons]) "T"

/-- C9: timeframe conversion — the code handles the single-character
units (s = 1, h = 3600, d = 86400, w = 604800, m = 2592000, y = 31536000
seconds) and the literal "all" (returning the current epoch time, i.e.
the span of all available history), but the two-character unit "mi"
promised by the spec is unreachable: the unit key is taken from the final
character only, so `int("5m")` raises ValueError (modelled `none`) for
"5mi", where the spec-modelled parser returns 300. -/
theorem C9_timeframe_units :
    (∀ now : ℤ, timeframe_to_seconds now "5mi" = none ∧
      timeframe_to_seconds_spec now "5mi" = some 300) ∧
    (∀ now : ℤ,
      timeframe_to_seconds now "30s" = some 30 ∧
      timeframe_to_seconds now "2h" = some 7200 ∧
      timeframe_to_seconds now "1d" = some 86400 ∧
      timeframe_to_seconds now "1w" = some 604800 ∧
      timeframe_to_seconds now "1m" = some 2592000 ∧
      timeframe_to_seconds now "1y" = some 31536000 ∧
      timeframe_to_seconds now "all" = some now) :=
  ⟨fun _ => ⟨rfl, rfl⟩, fun _ => ⟨rfl, rfl, rfl, rfl, rfl, rfl, rfl⟩⟩

/-! ## Lemmas for C10 -/

theorem consumedMatches_nonneg :
    ∀ (lots : List Lot) (need : ℚ), 0 ≤ need →
      (∀ l ∈ lots, 0 ≤ l.quantity ∧ 0 ≤ l.unit_cost_usd) →
      ∀ m ∈ consumedMatches lots need, 0 ≤ m.1 ∧ 0 ≤ m.2.1
  | [], need => by
    intro _ _ m hm
    by_cases h : 0 < need <;> simp [consumedMatches, h] at hm
  | lot :: rest, need => by
    intro hneed hl m hm
    by_cases h : 0 < need
    · simp only [consumedMatches, if_pos h] at hm
      rcases List.mem_cons.mp hm with rfl | hm
      · exact ⟨le_min hneed (hl lot (List.mem_cons_self _ _)).1,
          (hl lot (List.mem_cons_self _ _)).2⟩
      · by_cases h2 : min need lot.quantity < lot.quantity
        · simp [h2] at hm
        · rw [if_neg h2] at hm
          exact consumedMatches_nonneg rest (need - min need lot.quantity)
            (sub_nonneg.mpr (min_le_left _ _))
            (fun l' hl' => hl l' (List.mem_cons_of_mem _ hl')) m hm
    · simp [consumedMatches, h] at hm

theorem map_neg_sum (l : List (ℚ × ℚ × ℚ)) (f : ℚ × ℚ × ℚ → ℚ) :
    (l.map (fun m => -(f m))).sum = -((l.map f).sum) := by
  induction l with
  | nil => simp
  | cons x xs ih => simp [ih]; ring

/-- C10: disposals are never dropped — every disposal event increments
`total_sales` by exactly one, whatever the sell price or the state of the
inventory; and when the sell-price lookup returns 0 while lots exist, the
matching still runs: the disposal's realized PnL equals the negative of
the consumed cost basis (sum of `unit_cost * matched`), which can never
count as a win. -/
theorem C10_disposal_always_counted :
    ∀ (price : String → ℚ → ℚ) (s : CalcState) (tx : SwapEvent),
      tx.token_amount < 0 →
      ((step price s tx).total_sales = s.total_sales + 1) ∧
      (price tx.token tx.timestamp = 0 →
        (∀ l ∈ s.holdings.val tx.token, 0 ≤ l.quantity ∧ 0 ≤ l.unit_cost_usd) →
        (step price s tx).realized_pnl = s.realized_pnl -
          ((consumedMatches (s.holdings.val tx.token) |tx.token_amount|).map
            (fun m => m.2.1 * m.1)).sum ∧
        (step price s tx).wins = s.wins) := by
  intro price s tx h1
  have hpos : ¬ 0 < tx.token_amount := not_lt.mpr (le_of_lt h1)
  refine ⟨by simp [step, hpos, h1], ?_⟩
  intro hp hl
  have hpnl : (sellLoop (price tx.token tx.timestamp) tx.timestamp |tx.token_amount|
      (s.holdings.val tx.token) 0 0 |tx.token_amount|).pnl_usd =
      -(((consumedMatches (s.holdings.val tx.token) |tx.token_amount|).map
        (fun m => m.2.1 * m.1)).sum) := by
    rw [sellLoop_pnl, hp, zero_add]
    rw [show (fun (m : ℚ × ℚ × ℚ) => (0 - m.2.1) * m.1) =
        (fun (m : ℚ × ℚ × ℚ) => -(m.2.1 * m.1)) from funext (fun m => by ring)]
    exact map_neg_sum _ _
  have hnonneg : 0 ≤ ((consumedMatches (s.holdings.val tx.token) |tx.token_amount|).map
      (fun m => m.2.1 * m.1)).sum := by
    apply List.sum_nonneg
    intro x hx
    rcases List.mem_map.mp hx with ⟨m, hm, rfl⟩
    obtain ⟨hq, hc⟩ := consumedMatches_nonneg _ _ (abs_nonneg _) hl m hm
    exact mul_nonneg hc hq
  have hwin : ¬ 0 < (sellLoop (price tx.token tx.timestamp) tx.timestamp |tx.token_amount|
      (s.holdings.val tx.token) 0 0 |tx.token_amount|).pnl_usd := by
    rw [hpnl]
    exact not_lt.mpr (neg_nonpos.mpr hnonneg)
  constructor
  · simp only [step, if_neg hpos, if_pos h1]
    rw [hpnl]
    ring
  · simp only [step, if_neg hpos, if_pos h1]
    simp [hwin]

/-- An oracle with no price data at all (every lookup yields 0). -/
def zeroPrice : String → ℚ → ℚ := fun _ _ => 0

/-- Closed instance of `C10_disposal_always_counted`: selling 15 "T" at
price 0 against an inventory of one lot (10 @ cost 1) increments
`total_sales`, realizes minus the consumed cost basis, and adds no win. -/
theorem C10_witness :
    (step zeroPrice ⟨Holdings.empty.set "T" [⟨10, 1, 100⟩], 0, [], 0, 0, 0, 0⟩
        ⟨"D", "T", 300, -15, 1⟩).total_sales =
      (⟨Holdings.empty.set "T" [⟨10, 1, 100⟩], 0, [], 0, 0, 0, 0⟩ : CalcState).total_sales
        + 1 ∧
    ((step zeroPrice ⟨Holdings.empty.set "T" [⟨10, 1, 100⟩], 0, [], 0, 0, 0, 0⟩
        ⟨"D", "T", 300, -15, 1⟩).realized_pnl =
      (⟨Holdings.empty.set "T" [⟨10, 1, 100⟩], 0, [], 0, 0, 0, 0⟩ : CalcState).realized_pnl -
        ((consumedMatches
          ((⟨Holdings.empty.set "T" [⟨10, 1, 100⟩], 0, [], 0, 0, 0, 0⟩ : CalcState).holdings.val
            "T") |(-15 : ℚ)|).map (fun m => m.2.1 * m.1)).sum ∧
      (step zeroPrice ⟨Holdings.empty.set "T" [⟨10, 1, 100⟩], 0, [], 0, 0, 0, 0⟩
        ⟨"D", "T", 300, -15, 1⟩).wins =
      (⟨Holdings.empty.set "T" [⟨10, 1, 100⟩], 0, [], 0, 0, 0, 0⟩ : CalcState).wins) :=
  ⟨(C10_disposal_always_counted zeroPrice
      ⟨Holdings.empty.set "T" [⟨10, 1, 100⟩], 0, [], 0, 0, 0, 0⟩
      ⟨"D", "T", 300, -15, 1⟩ (by norm_num)).1,
    (C10_disposal_always_counted zeroPrice
      ⟨Holdings.empty.set "T" [⟨10, 1, 100⟩], 0, [], 0, 0, 0, 0⟩
      ⟨"D", "T", 300, -15, 1⟩ (by norm_num)).2 rfl
      (by
        intro l hl
        simp only [Holdings.val_set, Holdings.empty] at hl
        rcases List.mem_singleton.mp (by simpa using hl) with rfl
        norm_num)⟩

end SWA
